import Mathlib

/-!
# Verification of the TetrisField placement engine

A shallow embedding of `TetrisField.py`: a rectangular grid of cell codes
(numpy `uint8`), a cached per-column height array, collision testing,
perfect-fit testing, piece placement/removal and drop resolution.

Cells are modelled as `Nat` values, with `% 256` wherever the source stores
into a `uint8` array.  Grid coordinates are `Int`, and numpy's indexing
semantics (negative indices wrap, fully out-of-range indices raise
`IndexError`) are made explicit through `pyIdx`.
-/

namespace Tetris

/-- Modelled from the spec: the cell code of an `Empty` cell.  The source
takes it from the missing `TetrisPiece.typeStringToInt` catalog; the grid is
created with `np.zeros`, and freshly constructed fields are treated as
entirely empty, so the `Empty` code is `0`. -/
def EMPTY_INT : Nat := 0

/-- Modelled from the spec: the code of the `OutOfBounds` / boundary sentinel
(`'X'`), taken from the missing `TetrisPiece` catalog.  Its exact value is
unspecified; it is a small integer distinct from `EMPTY_INT` and from every
piece type tag. -/
def LIMIT_INT : Nat := 1

/-- Modelled from the spec: a piece is an ordered list of
(rowOffset, colOffset) pairs for the current rotation, a mutable top-left
anchor `(row, col)` in field coordinates, and a type tag stored both as a
small integer code (`typeInt`, the value written into grid cells) and as a
string (`typeString`, a one-character shape name).  The catalog itself
(`TetrisPiece.py`) is not in the sources; only the attributes read by the
field engine are modelled. -/
structure Piece where
  currentOrientation : List (Int × Int)
  topLeftCorner : Int × Int
  typeInt : Nat
  typeString : String
  deriving Repr, DecidableEq

/-- Modelled from the spec: the shape-catalog contract for real tetromino
pieces: a piece occupies at least one cell (four, for the seven tetrominoes),
its offsets are non-negative (they are relative to the top-left corner), and
its integer tag is a `uint8` code distinct from the `Empty` and boundary
codes. -/
def Piece.Wf (p : Piece) : Prop :=
  p.currentOrientation ≠ [] ∧
  (∀ o ∈ p.currentOrientation, 0 ≤ o.1 ∧ 0 ≤ o.2) ∧
  p.typeInt < 256 ∧ p.typeInt ≠ EMPTY_INT ∧ p.typeInt ≠ LIMIT_INT

instance (p : Piece) : Decidable p.Wf := by
  unfold Piece.Wf; infer_instance

/-- In Python, `==` between an `int` (or numpy integer) and a `str` is always
`False`: the two types are never equal.  `isPerfectFit` compares the integer
cell value against `piece.typeString`, so this comparison is what the source
actually evaluates. -/
def pyEqNatStr (_n : Nat) (_s : String) : Bool := false

/-- numpy index resolution for one axis of length `n`: indices in `[0, n)`
are used as-is, indices in `[-n, 0)` wrap around to `n + i`, anything else
raises `IndexError` (modelled as `none`). -/
def pyIdx (n : Nat) (i : Int) : Option Nat :=
  if 0 ≤ i ∧ i < (n : Int) then some i.toNat
  else if -(n : Int) ≤ i ∧ i < 0 then some (i + (n : Int)).toNat
  else none

/-- The field: a `height × width` grid of `uint8` cell codes plus the cached
per-column heights (`columnHeights`, also `uint8`). -/
structure Field where
  width : Nat
  height : Nat
  data : List (List Nat)
  columnHeights : List Nat
  deriving Repr, DecidableEq

/-- Shape well-formedness of a field value: the grid really is
`height × width` and the height cache has one entry per column, all entries
being `uint8` values.  Every field built by the source constructor and
maintained by its operations has this shape. -/
def Field.Wf (f : Field) : Prop :=
  f.data.length = f.height ∧
  (∀ row ∈ f.data, row.length = f.width) ∧
  f.columnHeights.length = f.width

instance (f : Field) : Decidable f.Wf := by
  unfold Field.Wf; infer_instance

/-- Raw 2-D read at non-negative resolved coordinates (out-of-shape reads
default to the `Empty` code; they do not occur on well-formed grids within
range). -/
def getD2 (g : List (List Nat)) (y x : Nat) : Nat :=
  (g.getD y []).getD x EMPTY_INT

/-- Raw grid read on a field. -/
def cellN (f : Field) (y x : Nat) : Nat :=
  getD2 f.data y x

/-- Raw 2-D write at non-negative resolved coordinates (out-of-shape writes
are no-ops; they do not occur on well-formed grids within range). -/
def update2 (g : List (List Nat)) (y x v : Nat) : List (List Nat) :=
  g.set y ((g.getD y []).set x v)

/-- `TetrisField.getCellValue`: bounds are checked *before* indexing, so no
wrap-around occurs; out-of-bounds coordinates give the boundary sentinel. -/
def getCellValue (f : Field) (y x : Int) : Nat :=
  if 0 ≤ y ∧ y < (f.height : Int) ∧ 0 ≤ x ∧ x < (f.width : Int) then
    cellN f y.toNat x.toNat
  else
    LIMIT_INT

/-- `TetrisField.collides`: walk the position list; `self.data[y, x]` is a
raw numpy read, so negative indices wrap and only fully out-of-range indices
raise `IndexError` (caught, reported as a collision).  A non-`Empty` resolved
cell is a collision; the loop returns at the first hit. -/
def collides (f : Field) (positions : List (Int × Int)) : Bool :=
  match positions with
  | [] => false
  | (y, x) :: rest =>
    match pyIdx f.height y, pyIdx f.width x with
    | some yy, some xx =>
      if cellN f yy xx ≠ EMPTY_INT then true else collides f rest
    | _, _ => true

/-- The collision status of a single position: the raw numpy read of
`collides`, with `IndexError` (no wrap-resolution) and a non-`Empty`
resolved cell both counting as a collision. -/
def collidesAt (f : Field) (pos : Int × Int) : Bool :=
  match pyIdx f.height pos.1, pyIdx f.width pos.2 with
  | some yy, some xx => cellN f yy xx ≠ EMPTY_INT
  | _, _ => true

/-- The raw numpy read `self.data[y, x]` as a total function: `none` models
`IndexError`, otherwise the wrap-resolved cell value. -/
def rawCell (f : Field) (y x : Int) : Option Nat :=
  match pyIdx f.height y, pyIdx f.width x with
  | some yy, some xx => some (cellN f yy xx)
  | _, _ => none

/-- The recalculation loop of `TetrisField.getColumnHeight(c, recalc=True)`:
scan rows of the grid from `height - 1` downward, stop at the first `Empty`
cell, counting the non-`Empty` cells passed.  The last argument is the
number of rows still to scan (initially the field height); the `y + 1` case
examines row `y`. -/
def recalcColumn (g : List (List Nat)) (c : Nat) : Nat → Nat
  | 0 => 0
  | y + 1 => if getD2 g y c = EMPTY_INT then 0 else recalcColumn g c y + 1

/-- `TetrisField.getColumnHeight` for an in-range column index: with
`recalc` set, rescan the column and store the result into the `uint8` cache
before returning the cached entry. -/
def getColumnHeight (f : Field) (c : Nat) (recalc : Bool) : Nat × Field :=
  if recalc then
    let f' : Field :=
      { f with columnHeights :=
          f.columnHeights.set c (recalcColumn f.data c f.height % 256) }
    (f'.columnHeights.getD c EMPTY_INT, f')
  else
    (f.columnHeights.getD c EMPTY_INT, f)

/-- The piece's absolute occupied cells: anchor + each relative offset, in
catalog order (the `finalPositions` list of `isPerfectFit`). -/
def finalPositions (p : Piece) : List (Int × Int) :=
  p.currentOrientation.map
    (fun o => (o.1 + p.topLeftCorner.1, o.2 + p.topLeftCorner.2))

/-- The wrap-resolved grid cell of one piece offset: `none` exactly when the
raw numpy indexing of that absolute cell would raise `IndexError`. -/
def resolveCell (h w : Nat) (p : Piece) (o : Int × Int) : Option (Nat × Nat) :=
  match pyIdx h (o.1 + p.topLeftCorner.1), pyIdx w (o.2 + p.topLeftCorner.2) with
  | some yy, some xx => some (yy, xx)
  | _, _ => none

/-- All wrap-resolved absolute cells of the piece, in catalog order. -/
def resolvedCells (h w : Nat) (p : Piece) : List (Nat × Nat) :=
  p.currentOrientation.filterMap (resolveCell h w p)

/-- Write value `v` into a list of resolved grid cells in order. -/
def writeCells (g : List (List Nat)) (cs : List (Nat × Nat)) (v : Nat) :
    List (List Nat) :=
  cs.foldl (fun acc c => update2 acc c.1 c.2 v) g

/-- The height-cache update of one `placePiece` loop iteration:
`columnHeights[x] = max(columnHeights[x], height - y)`, stored as `uint8`,
skipped when the iteration's grid write would have raised. -/
def placeChStep (h w : Nat) (p : Piece) (ch : List Nat) (o : Int × Int) :
    List Nat :=
  match resolveCell h w p o with
  | some (_, xx) =>
    ch.set xx
      (max (ch.getD xx EMPTY_INT)
        ((h : Int) - (o.1 + p.topLeftCorner.1)).toNat % 256)
  | none => ch

/-- `TetrisField.placePiece`: write `typeInt` into every absolute cell of
the piece and bump the affected cached column height to
`max(old, height - y)`, stored as `uint8`.  Raw numpy writes: negative
indices wrap; fully out-of-range writes raise in the source and are
modelled as skips — they are unreachable in the source's call sites, which
are all guarded by `collides`.  The loop body's grid write and height-cache
update touch disjoint state, so the single source loop is rendered as one
fold per array. -/
def placePiece (f : Field) (p : Piece) : Field :=
  { f with
    data := writeCells f.data (resolvedCells f.height f.width p) (p.typeInt % 256),
    columnHeights :=
      p.currentOrientation.foldl (placeChStep f.height f.width p)
        f.columnHeights }

/-- The distinct raw column indices collected by `unplacePiece` in its set
`s`: the columns of the cells whose erasing write succeeded.  Recalculations
of distinct columns write disjoint cache entries and read only the grid, so
the Python set's iteration order is irrelevant; a deduplicated list in first
appearance order is used. -/
def unplaceCols (h w : Nat) (p : Piece) : List Int :=
  ((p.currentOrientation.filter
      (fun o => (resolveCell h w p o).isSome)).map
    (fun o => o.2 + p.topLeftCorner.2)).dedup

/-- One height-cache recomputation of the `unplacePiece` epilogue:
`getColumnHeight(x, recalc=True)` over the erased grid `g`, for a raw
(possibly negative, wrap-resolved) column index. -/
def unplaceChStep (g : List (List Nat)) (h w : Nat) (ch : List Nat) (x : Int) :
    List Nat :=
  match pyIdx w x with
  | some xx => ch.set xx (recalcColumn g xx h % 256)
  | none => ch

/-- `TetrisField.unplacePiece`: write `Empty` into every absolute cell of
the piece (same raw-write semantics as `placePiece`), then recompute the
cached height of every distinct touched column with the
`getColumnHeight(…, recalc=True)` scan over the now-erased grid. -/
def unplacePiece (f : Field) (p : Piece) : Field :=
  let erasedData := writeCells f.data (resolvedCells f.height f.width p) EMPTY_INT
  { f with
    data := erasedData,
    columnHeights :=
      (unplaceCols f.height f.width p).foldl
        (unplaceChStep erasedData f.height f.width) f.columnHeights }

inductive PerfectFit where
  | PERFECT
  | EXIT
  | CONTINUE
  deriving Repr, DecidableEq

/-- One entry of the `comparisons` chain in `isPerfectFit`, in source order:
a neighbor that is one of the piece's own cells is fine; a boundary-sentinel
reading is fine; a value equal to the piece's `typeString` is a failure (but
`pyEqNatStr` shows what Python evaluates there); an `Empty` reading fails
exactly when `emptyOK` is false. -/
def comparisonOK (positions : List (Int × Int)) (ts : String)
    (pos : Int × Int) (cellVal : Nat) (emptyOK : Bool) : Bool :=
  if pos ∈ positions then true
  else if cellVal = LIMIT_INT then true
  else if pyEqNatStr cellVal ts then false
  else if cellVal = EMPTY_INT && !emptyOK then false
  else true

/-- The per-cell neighbor check of `isPerfectFit`: below (`emptyOK` false),
left, right (`emptyOK` true), read from the field with the piece temporarily
placed; `&&` mirrors the inner loop's break-on-failure. -/
def cellChecksOK (f1 : Field) (positions : List (Int × Int)) (ts : String)
    (pos : Int × Int) : Bool :=
  let y := pos.1
  let x := pos.2
  comparisonOK positions ts (y + 1, x) (getCellValue f1 (y + 1) x) false &&
  comparisonOK positions ts (y, x - 1) (getCellValue f1 y (x - 1)) true &&
  comparisonOK positions ts (y, x + 1) (getCellValue f1 y (x + 1)) true

/-- `TetrisField.isPerfectFit`: compute the absolute positions; if they
collide, return `EXIT`.  Otherwise temporarily place the piece, evaluate the
neighbor conditions of every cell, unplace, and return `PERFECT` when all
cells were happy, else `CONTINUE`.  The source mutates the field in place;
here the post-call field is returned alongside the outcome. -/
def isPerfectFit (f : Field) (p : Piece) : PerfectFit × Field :=
  let positions := finalPositions p
  if collides f positions then
    (PerfectFit.EXIT, f)
  else
    let f1 := placePiece f p
    let happy := positions.all (cellChecksOK f1 positions p.typeString)
    let f2 := unplacePiece f1 p
    (if happy then PerfectFit.PERFECT else PerfectFit.CONTINUE, f2)

/-- Advance the piece's anchor one row downward
(`piece.topLeftCorner[0] += 1`). -/
def advanceRow (p : Piece) : Piece :=
  { p with topLeftCorner := (p.topLeftCorner.1 + 1, p.topLeftCorner.2) }

/-- `TetrisField.findDrop` with explicit fuel bounding the number of
perfect-fit evaluations: the source loops `while CONTINUE`, advancing the
anchor's row by one each time; `EXIT` yields `some none` (no placement) and
`PERFECT` yields the piece at its final anchor.  `none` means the fuel ran
out before the loop finished. -/
def findDropFuel (f : Field) (p : Piece) : Nat → Option (Option Piece)
  | 0 => none
  | n + 1 =>
    match (isPerfectFit f p).1 with
    | PerfectFit.CONTINUE => findDropFuel f (advanceRow p) n
    | PerfectFit.EXIT => some none
    | PerfectFit.PERFECT => some (some p)

/-- Python slice endpoint normalization for a sequence of length `n`:
negative endpoints count from the end, then both are clamped to `[0, n]`. -/
def pySliceIdx (n : Nat) (i : Int) : Nat :=
  if i < 0 then (max 0 ((n : Int) + i)).toNat else min i.toNat n

/-- Python slice `l[s:e]` (step 1). -/
def pySlice {α : Type} (l : List α) (s e : Int) : List α :=
  (l.drop (pySliceIdx l.length s)).take (pySliceIdx l.length e - pySliceIdx l.length s)

/-- An independent formulation of what the recalculation scan computes: the
length of the run of consecutive non-`Empty` cells of column `c`, scanning
upward from the bottom row and stopping at the first `Empty` cell. -/
def bottomRun (f : Field) (c : Nat) : Nat :=
  ((List.range f.height).reverse.takeWhile
    (fun y => cellN f y c != EMPTY_INT)).length

/-- The column-height formula asserted by the specification: `height` minus
the row index of the topmost non-`Empty` cell of column `c`, or `0` if the
column is entirely empty. -/
def specColumnHeight (f : Field) (c : Nat) : Nat :=
  match (List.range f.height).find? (fun y => cellN f y c != EMPTY_INT) with
  | some y => f.height - y
  | none => 0

/-- `TetrisField.getColumnHeights`: a slice of the cached heights with
Python defaults `startIndex = 0` and `endIndex = width - 1`. -/
def getColumnHeights (f : Field) (startIndex endIndex : Option Int) : List Nat :=
  let s := startIndex.getD 0
  let e := endIndex.getD ((f.width : Int) - 1)
  pySlice f.columnHeights s e

/-- `TetrisField.__init__`: an all-`Empty` grid with a zeroed height
cache. -/
def mkField (width height : Nat) : Field :=
  { width := width, height := height,
    data := List.replicate height (List.replicate width EMPTY_INT),
    columnHeights := List.replicate width 0 }

/-- Modelled from the spec: the square (O) tetromino in its single rotation,
with catalog tag `2`, placed at the given anchor. -/
def oPiece (anchor : Int × Int) : Piece :=
  { currentOrientation := [(0, 0), (0, 1), (1, 0), (1, 1)],
    topLeftCorner := anchor, typeInt := 2, typeString := "O" }

/-- Modelled from the spec: an S-shaped tetromino in its neutral rotation
(top row shifted right of the bottom row), with catalog tag `3`, placed at
the given anchor. -/
def sPiece (anchor : Int × Int) : Piece :=
  { currentOrientation := [(0, 1), (0, 2), (1, 0), (1, 1)],
    topLeftCorner := anchor, typeInt := 3, typeString := "S" }

/-- A 1-wide, 2-tall field whose column holds a piece cell above an `Empty`
cell (an overhang gap): its recomputed column height exposes the bottom-run
semantics of the rescan. -/
def gapField : Field :=
  { width := 1, height := 2, data := [[2], [0]], columnHeights := [0] }

/-- A 4-wide, 2-tall field with two O-type cells stacked in column 0 and an
accurate height cache. -/
def sameTagField : Field :=
  { width := 4, height := 2, data := [[2, 0, 0, 0], [2, 0, 0, 0]],
    columnHeights := [2, 0, 0, 0] }

/-- An empty 2×2 field whose cached height for column 0 is stale (`5`
instead of the accurate `0`). -/
def staleField : Field :=
  { width := 2, height := 2, data := [[0, 0], [0, 0]], columnHeights := [5, 0] }

/-- An empty 2×2 field with a differently stale height cache (`7`). -/
def staleField2 : Field :=
  { width := 2, height := 2, data := [[0, 0], [0, 0]], columnHeights := [7, 0] }

/-- A 1×1 empty field. -/
def smallField : Field := mkField 1 1

/-- A 4-wide, 2-tall empty field. -/
def wideField : Field := mkField 4 2

/-- A 3-wide field with distinct cached column heights. -/
def heightsField : Field :=
  { width := 3, height := 1, data := [[0, 0, 0]], columnHeights := [4, 5, 6] }

namespace NpHeap

/-!
A store model of numpy buffer ownership, for the copy/slice operations: the
value-level `Field` model cannot express whether two fields share storage,
so `copy` and `copySubFields` are modelled over an explicit store of
buffers addressed by reference ids.
-/

/-- A store of numpy buffers: 2-D grid buffers and 1-D height-cache buffers
are addressed by reference ids (separate address spaces); `fresh` is the
next unallocated id. -/
structure Store where
  grids : Nat → List (List Nat)
  cols : Nat → List Nat
  fresh : Nat

/-- A field whose two arrays live in a store.  `colOff` is the column
offset of the field's view into the underlying buffers: `0` for a freshly
constructed or deep-copied field, the slice start for fields made by
`copySubFields`. -/
structure HField where
  dataRef : Nat
  chRef : Nat
  colOff : Nat
  width : Nat
  height : Nat

/-- `TetrisField.__init__` in the store model: allocate two fresh zeroed
buffers. -/
def mkHField (σ : Store) (width height : Nat) : HField × Store :=
  (⟨σ.fresh, σ.fresh + 1, 0, width, height⟩,
   { grids := fun r =>
       if r = σ.fresh then List.replicate height (List.replicate width EMPTY_INT)
       else σ.grids r,
     cols := fun r =>
       if r = σ.fresh + 1 then List.replicate width 0 else σ.cols r,
     fresh := σ.fresh + 2 })

/-- Read `self.data[y, x]` through the field's view. -/
def readData (σ : Store) (f : HField) (y x : Nat) : Nat :=
  ((σ.grids f.dataRef).getD y []).getD (f.colOff + x) EMPTY_INT

/-- Write `self.data[y, x] = v` through the field's view: the underlying
shared buffer is mutated. -/
def writeData (σ : Store) (f : HField) (y x v : Nat) : Store :=
  { σ with grids := fun r =>
      if r = f.dataRef then update2 (σ.grids f.dataRef) y (f.colOff + x) v
      else σ.grids r }

/-- Read `self.columnHeights[c]` through the field's view. -/
def readCH (σ : Store) (f : HField) (c : Nat) : Nat :=
  (σ.cols f.chRef).getD (f.colOff + c) EMPTY_INT

/-- Write `self.columnHeights[c] = v` through the field's view. -/
def writeCH (σ : Store) (f : HField) (c v : Nat) : Store :=
  { σ with cols := fun r =>
      if r = f.chRef then (σ.cols f.chRef).set (f.colOff + c) v
      else σ.cols r }

/-- The grid contents of the field's view window, as materialized by
`np.copy(self.data)`. -/
def window (σ : Store) (f : HField) : List (List Nat) :=
  ((σ.grids f.dataRef).map (fun row => (row.drop f.colOff).take f.width)).take
    f.height

/-- The height-cache contents of the field's view window, as materialized
by `np.copy(self.columnHeights)`. -/
def chWindow (σ : Store) (f : HField) : List Nat :=
  ((σ.cols f.chRef).drop f.colOff).take f.width

/-- `TetrisField.copy`: `np.copy` materializes both views into fresh
buffers, so the result owns independent storage. -/
def copy (σ : Store) (f : HField) : HField × Store :=
  (⟨σ.fresh, σ.fresh + 1, 0, f.width, f.height⟩,
   { grids := fun r => if r = σ.fresh then window σ f else σ.grids r,
     cols := fun r => if r = σ.fresh + 1 then chWindow σ f else σ.cols r,
     fresh := σ.fresh + 2 })

/-- `TetrisField.copySubFields`: numpy basic slicing
(`self.data[:, startX:endX]` and `self.columnHeights[startX:endX]`) returns
views — no buffer is allocated or copied; the result addresses the same
underlying buffers as the source, shifted by `startX`. -/
def copySubFields (f : HField) (startX endX : Nat) : HField :=
  ⟨f.dataRef, f.chRef, f.colOff + startX, endX - startX, f.height⟩

/-- The empty store. -/
def emptyStore : Store := ⟨fun _ => [], fun _ => [], 0⟩

/-- A concrete 2-wide, 1-tall field freshly allocated in the empty store. -/
def base : HField × Store := mkHField emptyStore 2 1

end NpHeap

/-! ## Basic lemmas about raw reads and writes -/

theorem length_update2 (g : List (List Nat)) (y x v : Nat) :
    (update2 g y x v).length = g.length := by
  simp [update2]

theorem getD_row_update2 (g : List (List Nat)) (y x v i : Nat) :
    ((update2 g y x v).getD i []).length = (g.getD i []).length := by
  unfold update2
  rcases eq_or_ne y i with rfl | hne
  · by_cases hy : y < g.length
    · simp [List.getD_eq_getElem?_getD, List.getElem?_set_self hy,
        List.getElem?_eq_getElem hy]
    · rw [List.set_eq_of_length_le (Nat.le_of_not_lt hy)]
  · simp [List.getD_eq_getElem?_getD, List.getElem?_set_ne hne]

theorem getD2_update2_ne (g : List (List Nat)) (y x v i j : Nat)
    (h : i ≠ y ∨ j ≠ x) : getD2 (update2 g y x v) i j = getD2 g i j := by
  unfold getD2 update2
  rcases eq_or_ne y i with rfl | hne
  · rcases h with h | h
    · exact absurd rfl h.symm
    · by_cases hy : y < g.length
      · simp [List.getD_eq_getElem?_getD, List.getElem?_set_self hy,
          List.getElem?_eq_getElem hy, List.getElem?_set_ne (Ne.symm h)]
      · rw [List.set_eq_of_length_le (Nat.le_of_not_lt hy)]
  · simp [List.getD_eq_getElem?_getD, List.getElem?_set_ne hne]

theorem getD2_update2_self (g : List (List Nat)) (y x v : Nat)
    (hy : y < g.length) (hx : x < (g.getD y []).length) :
    getD2 (update2 g y x v) y x = v := by
  unfold getD2 update2
  simp [List.getD_eq_getElem?_getD, List.getElem?_set_self hy,
    List.getElem?_eq_getElem hy, List.getElem?_set_self (by
      simpa [List.getD_eq_getElem?_getD, List.getElem?_eq_getElem hy] using hx)]

theorem length_writeCells (g : List (List Nat)) (cs : List (Nat × Nat)) (v : Nat) :
    (writeCells g cs v).length = g.length := by
  induction cs generalizing g with
  | nil => rfl
  | cons c cs ih => simpa [writeCells, List.foldl_cons] using
      (ih (update2 g c.1 c.2 v)).trans (length_update2 g c.1 c.2 v)

theorem getD_row_writeCells (g : List (List Nat)) (cs : List (Nat × Nat))
    (v i : Nat) :
    ((writeCells g cs v).getD i []).length = (g.getD i []).length := by
  induction cs generalizing g with
  | nil => rfl
  | cons c cs ih => simpa [writeCells, List.foldl_cons] using
      (ih (update2 g c.1 c.2 v)).trans (getD_row_update2 g c.1 c.2 v i)

/-- After writing `v` into each cell of `cs` (all of which lie within the
grid's shape), a position reads `v` if it is one of the written cells and
its original value otherwise. -/
theorem getD2_writeCells (g : List (List Nat)) (cs : List (Nat × Nat)) (v : Nat)
    (hsh : ∀ c ∈ cs, c.1 < g.length ∧ c.2 < (g.getD c.1 []).length) (i j : Nat) :
    getD2 (writeCells g cs v) i j =
      if (i, j) ∈ cs then v else getD2 g i j := by
  induction cs generalizing g with
  | nil => simp [writeCells]
  | cons c cs ih =>
    have hc := hsh c (List.mem_cons_self c cs)
    have hsh' : ∀ d ∈ cs, d.1 < (update2 g c.1 c.2 v).length ∧
        d.2 < ((update2 g c.1 c.2 v).getD d.1 []).length := by
      intro d hd
      have hh := hsh d (List.mem_cons_of_mem c hd)
      refine ⟨?_, ?_⟩
      · rw [length_update2]; exact hh.1
      · rw [getD_row_update2]; exact hh.2
    have hstep : writeCells g (c :: cs) v = writeCells (update2 g c.1 c.2 v) cs v := by
      simp [writeCells, List.foldl_cons]
    rw [hstep, ih (update2 g c.1 c.2 v) hsh']
    by_cases hmem : (i, j) ∈ cs
    · simp [hmem, List.mem_cons_of_mem c hmem]
    · by_cases hij : (i, j) = c
      · subst hij
        simp [hmem, getD2_update2_self g i j v hc.1 hc.2]
      · have : (i, j) ∉ c :: cs := by
          intro hmem2
          rcases List.mem_cons.1 hmem2 with h | h
          · exact hij h
          · exact hmem h
        have hne : i ≠ c.1 ∨ j ≠ c.2 := by
          by_contra hcon
          push_neg at hcon
          exact hij (Prod.ext hcon.1 hcon.2)
        simp [hmem, this, getD2_update2_ne g c.1 c.2 v i j hne]

/-- Two grids with the same row count, the same row lengths, and the same
raw reads everywhere are equal. -/
theorem grid_ext (g₁ g₂ : List (List Nat)) (hlen : g₁.length = g₂.length)
    (hrow : ∀ i, (g₁.getD i []).length = (g₂.getD i []).length)
    (hcell : ∀ i j, getD2 g₁ i j = getD2 g₂ i j) : g₁ = g₂ := by
  apply List.ext_getElem?
  intro n
  by_cases hn : n < g₁.length
  · have hn2 : n < g₂.length := hlen ▸ hn
    rw [List.getElem?_eq_getElem hn, List.getElem?_eq_getElem hn2]
    congr 1
    apply List.ext_getElem
    · have hr := hrow n
      simpa [List.getD_eq_getElem?_getD, List.getElem?_eq_getElem hn,
        List.getElem?_eq_getElem hn2] using hr
    · intro j h1 h2
      have hc := hcell n j
      simp only [getD2, List.getD_eq_getElem?_getD, List.getElem?_eq_getElem hn,
        List.getElem?_eq_getElem hn2, Option.getD_some] at hc
      simpa [List.getD_eq_getElem?_getD, List.getElem?_eq_getElem h1,
        List.getElem?_eq_getElem h2] using hc
  · have hn2 : ¬ n < g₂.length := by omega
    rw [List.getElem?_eq_none (Nat.le_of_not_lt hn),
      List.getElem?_eq_none (Nat.le_of_not_lt hn2)]

/-! ## pyIdx and collision lemmas -/

theorem pyIdx_lt {n : Nat} {i : Int} {k : Nat} (h : pyIdx n i = some k) :
    k < n := by
  unfold pyIdx at h
  split at h
  · rename_i hin
    cases h
    omega
  · split at h
    · rename_i hin
      cases h
      omega
    · cases h

theorem pyIdx_of_nonneg {n : Nat} {i : Int} (h0 : 0 ≤ i) (hn : i < (n : Int)) :
    pyIdx n i = some i.toNat := by
  unfold pyIdx
  rw [if_pos ⟨h0, hn⟩]

theorem pyIdx_eq_none_iff {n : Nat} {i : Int} :
    pyIdx n i = none ↔ ¬ (-(n : Int) ≤ i ∧ i < (n : Int)) := by
  unfold pyIdx
  constructor
  · intro h
    split at h
    · cases h
    · split at h
      · cases h
      · omega
  · intro h
    rw [if_neg (by omega), if_neg (by omega)]

theorem collides_eq_any (f : Field) (ps : List (Int × Int)) :
    collides f ps = ps.any (collidesAt f) := by
  induction ps with
  | nil => rfl
  | cons q rest ih =>
    obtain ⟨y, x⟩ := q
    rw [List.any_cons]
    show (match pyIdx f.height y, pyIdx f.width x with
      | some yy, some xx =>
        if cellN f yy xx ≠ EMPTY_INT then true else collides f rest
      | _, _ => true) = _
    cases hy : pyIdx f.height y with
    | none => simp [collidesAt, hy]
    | some yy =>
      cases hx : pyIdx f.width x with
      | none => simp [collidesAt, hy, hx]
      | some xx =>
        by_cases hcell : cellN f yy xx = EMPTY_INT
        · simp [collidesAt, hy, hx, hcell, ih]
        · simp [collidesAt, hy, hx, hcell]

theorem collidesAt_eq_false_iff (f : Field) (pos : Int × Int) :
    collidesAt f pos = false ↔
      ∃ yy xx, pyIdx f.height pos.1 = some yy ∧ pyIdx f.width pos.2 = some xx ∧
        cellN f yy xx = EMPTY_INT := by
  unfold collidesAt
  cases hy : pyIdx f.height pos.1 with
  | none => simp [hy]
  | some yy =>
    cases hx : pyIdx f.width pos.2 with
    | none => simp [hy, hx]
    | some xx => simp [hy, hx]

/-! ## Shape and frame lemmas for placement and removal -/

theorem resolvedCells_shape (f : Field) (p : Piece) (hwf : f.Wf) :
    ∀ cell ∈ resolvedCells f.height f.width p,
      cell.1 < f.data.length ∧ cell.2 < (f.data.getD cell.1 []).length := by
  intro cell hmem
  rw [resolvedCells, List.mem_filterMap] at hmem
  obtain ⟨o, _, hres⟩ := hmem
  unfold resolveCell at hres
  cases hy : pyIdx f.height (o.1 + p.topLeftCorner.1) with
  | none => rw [hy] at hres; cases hres
  | some yy =>
    cases hx : pyIdx f.width (o.2 + p.topLeftCorner.2) with
    | none => rw [hy, hx] at hres; cases hres
    | some xx =>
      rw [hy, hx] at hres
      cases hres
      have h1 : yy < f.height := pyIdx_lt hy
      have h2 : xx < f.width := pyIdx_lt hx
      have hlen : yy < f.data.length := by rw [hwf.1]; exact h1
      refine ⟨hlen, ?_⟩
      have hrow : f.data.getD yy [] = f.data[yy] := by
        simp [List.getD_eq_getElem?_getD, List.getElem?_eq_getElem hlen]
      rw [hrow, hwf.2.1 f.data[yy] (List.getElem_mem hlen)]
      exact h2

theorem placeChStep_length (h w : Nat) (p : Piece) (ch : List Nat)
    (o : Int × Int) : (placeChStep h w p ch o).length = ch.length := by
  unfold placeChStep
  cases hr : resolveCell h w p o with
  | none => rfl
  | some cell => obtain ⟨yy, xx⟩ := cell; simp

theorem foldl_placeChStep_length (h w : Nat) (p : Piece)
    (l : List (Int × Int)) (ch : List Nat) :
    (l.foldl (placeChStep h w p) ch).length = ch.length := by
  induction l generalizing ch with
  | nil => rfl
  | cons o l ih =>
    rw [List.foldl_cons, ih, placeChStep_length]

theorem placeChStep_get?_ne (h w : Nat) (p : Piece) (ch : List Nat)
    (o : Int × Int) (c : Nat)
    (hno : ∀ cell, resolveCell h w p o = some cell → cell.2 ≠ c) :
    (placeChStep h w p ch o)[c]? = ch[c]? := by
  unfold placeChStep
  cases hr : resolveCell h w p o with
  | none => rfl
  | some cell =>
    obtain ⟨yy, xx⟩ := cell
    exact List.getElem?_set_ne (hno (yy, xx) hr)

theorem foldl_placeChStep_get?_untouched (h w : Nat) (p : Piece)
    (l : List (Int × Int)) (ch : List Nat) (c : Nat)
    (hno : ∀ o ∈ l, ∀ cell, resolveCell h w p o = some cell → cell.2 ≠ c) :
    (l.foldl (placeChStep h w p) ch)[c]? = ch[c]? := by
  induction l generalizing ch with
  | nil => rfl
  | cons o l ih =>
    rw [List.foldl_cons,
      ih _ (fun o' ho' => hno o' (List.mem_cons_of_mem o ho')),
      placeChStep_get?_ne h w p ch o c (hno o (List.mem_cons_self o l))]

theorem unplaceChStep_length (g : List (List Nat)) (h w : Nat)
    (ch : List Nat) (x : Int) : (unplaceChStep g h w ch x).length = ch.length := by
  unfold unplaceChStep
  cases hr : pyIdx w x <;> simp

theorem foldl_unplaceChStep_length (g : List (List Nat)) (h w : Nat)
    (l : List Int) (ch : List Nat) :
    (l.foldl (unplaceChStep g h w) ch).length = ch.length := by
  induction l generalizing ch with
  | nil => rfl
  | cons x l ih => rw [List.foldl_cons, ih, unplaceChStep_length]

theorem unplaceChStep_get?_ne (g : List (List Nat)) (h w : Nat)
    (ch : List Nat) (x : Int) (c : Nat) (hne : pyIdx w x ≠ some c) :
    (unplaceChStep g h w ch x)[c]? = ch[c]? := by
  unfold unplaceChStep
  cases hr : pyIdx w x with
  | none => rfl
  | some xx =>
    have : xx ≠ c := fun hxc => hne (hxc ▸ hr)
    exact List.getElem?_set_ne this

theorem foldl_unplaceChStep_get?_untouched (g : List (List Nat)) (h w : Nat)
    (l : List Int) (ch : List Nat) (c : Nat)
    (hno : ∀ x ∈ l, pyIdx w x ≠ some c) :
    (l.foldl (unplaceChStep g h w) ch)[c]? = ch[c]? := by
  induction l generalizing ch with
  | nil => rfl
  | cons x l ih =>
    rw [List.foldl_cons,
      ih _ (fun x' hx' => hno x' (List.mem_cons_of_mem x hx')),
      unplaceChStep_get?_ne g h w ch x c (hno x (List.mem_cons_self x l))]

/-- Every column recomputed by the `unplacePiece` epilogue ends up holding
the rescanned value of the erased grid (the recomputed value depends only on
the grid and the column, so repeated recomputations agree). -/
theorem foldl_unplaceChStep_get?_touched (g : List (List Nat)) (h w : Nat)
    (l : List Int) (ch : List Nat) (c : Nat) (hlen : c < ch.length)
    (htouch : ∃ x ∈ l, pyIdx w x = some c) :
    (l.foldl (unplaceChStep g h w) ch)[c]? =
      some (recalcColumn g c h % 256) := by
  induction l generalizing ch with
  | nil => obtain ⟨x, hx, _⟩ := htouch; cases hx
  | cons x l ih =>
    rw [List.foldl_cons]
    by_cases hl : ∃ x' ∈ l, pyIdx w x' = some c
    · exact ih (unplaceChStep g h w ch x)
        (by rw [unplaceChStep_length]; exact hlen) hl
    · have hx : pyIdx w x = some c := by
        obtain ⟨x', hx', hres⟩ := htouch
        rcases List.mem_cons.1 hx' with rfl | hmem
        · exact hres
        · exact absurd ⟨x', hmem, hres⟩ hl
      push_neg at hl
      rw [foldl_unplaceChStep_get?_untouched g h w l _ c hl]
      unfold unplaceChStep
      rw [hx]
      exact List.getElem?_set_self hlen

/-! ## The place/unplace round trip -/

theorem resolveCell_eq_some_iff {h w : Nat} {p : Piece} {o : Int × Int}
    {yy xx : Nat} :
    resolveCell h w p o = some (yy, xx) ↔
      pyIdx h (o.1 + p.topLeftCorner.1) = some yy ∧
      pyIdx w (o.2 + p.topLeftCorner.2) = some xx := by
  unfold resolveCell
  cases hy : pyIdx h (o.1 + p.topLeftCorner.1) with
  | none => simp [hy]
  | some a =>
    cases hx : pyIdx w (o.2 + p.topLeftCorner.2) with
    | none => simp [hy, hx]
    | some b => simp [hy, hx, And.comm, eq_comm]

/-- A column is recomputed by `unplacePiece` exactly when some piece cell
resolves into it. -/
theorem touched_cols_iff (h w : Nat) (p : Piece) (c : Nat) :
    (∃ x ∈ unplaceCols h w p, pyIdx w x = some c) ↔
      ∃ o ∈ p.currentOrientation, ∃ yy,
        resolveCell h w p o = some (yy, c) := by
  unfold unplaceCols
  constructor
  · rintro ⟨x, hx, hres⟩
    rw [List.mem_dedup, List.mem_map] at hx
    obtain ⟨o, ho, rfl⟩ := hx
    rw [List.mem_filter] at ho
    have hsome := ho.2
    rw [Option.isSome_iff_exists] at hsome
    obtain ⟨cell, hcell⟩ := hsome
    obtain ⟨yy, xx⟩ := cell
    refine ⟨o, ho.1, yy, ?_⟩
    have hx2 := (resolveCell_eq_some_iff.1 hcell).2
    rw [hres] at hx2
    cases hx2
    exact hcell
  · rintro ⟨o, ho, yy, hres⟩
    refine ⟨o.2 + p.topLeftCorner.2, ?_, (resolveCell_eq_some_iff.1 hres).2⟩
    rw [List.mem_dedup, List.mem_map]
    exact ⟨o, List.mem_filter.2 ⟨ho, by rw [hres]; rfl⟩, rfl⟩

theorem unplacePiece_data (f : Field) (p : Piece) :
    (unplacePiece f p).data =
      writeCells f.data (resolvedCells f.height f.width p) EMPTY_INT := rfl

/-- Erasing the freshly placed cells restores the original grid, provided
the placed cells were all `Empty` beforehand. -/
theorem place_unplace_data (f : Field) (p : Piece) (hwf : f.Wf)
    (hempty : ∀ cell ∈ resolvedCells f.height f.width p,
      getD2 f.data cell.1 cell.2 = EMPTY_INT) :
    (unplacePiece (placePiece f p) p).data = f.data := by
  have hR : resolvedCells (placePiece f p).height (placePiece f p).width p =
      resolvedCells f.height f.width p := rfl
  rw [unplacePiece_data, hR]
  have hpdata : (placePiece f p).data =
      writeCells f.data (resolvedCells f.height f.width p) (p.typeInt % 256) := rfl
  rw [hpdata]
  set R := resolvedCells f.height f.width p with hRdef
  have hshape := resolvedCells_shape f p hwf
  have hshape2 : ∀ cell ∈ R, cell.1 < (writeCells f.data R (p.typeInt % 256)).length ∧
      cell.2 < ((writeCells f.data R (p.typeInt % 256)).getD cell.1 []).length := by
    intro cell hcell
    have hs := hshape cell hcell
    refine ⟨?_, ?_⟩
    · rw [length_writeCells]; exact hs.1
    · rw [getD_row_writeCells]; exact hs.2
  apply grid_ext
  · rw [length_writeCells, length_writeCells]
  · intro i
    rw [getD_row_writeCells, getD_row_writeCells]
  · intro i j
    rw [getD2_writeCells _ R EMPTY_INT hshape2 i j,
      getD2_writeCells _ R (p.typeInt % 256) hshape i j]
    by_cases hmem : (i, j) ∈ R
    · rw [if_pos hmem, (hempty (i, j) hmem).symm]
    · rw [if_neg hmem, if_neg hmem]

/-- Placing a collision-free piece and immediately unplacing it restores
the whole field, provided the cached heights of the touched columns were
accurate (equal to their rescanned values) beforehand. -/
theorem place_unplace_roundtrip (f : Field) (p : Piece) (hwf : f.Wf)
    (hempty : ∀ cell ∈ resolvedCells f.height f.width p,
      getD2 f.data cell.1 cell.2 = EMPTY_INT)
    (hacc : ∀ o ∈ p.currentOrientation, ∀ yy xx,
      resolveCell f.height f.width p o = some (yy, xx) →
      f.columnHeights.getD xx EMPTY_INT = recalcColumn f.data xx f.height % 256) :
    unplacePiece (placePiece f p) p = f := by
  have hdata := place_unplace_data f p hwf hempty
  have hw : (unplacePiece (placePiece f p) p).width = f.width := rfl
  have hh : (unplacePiece (placePiece f p) p).height = f.height := rfl
  have hch : (unplacePiece (placePiece f p) p).columnHeights = f.columnHeights := by
    show ((unplaceCols f.height f.width p).foldl
        (unplaceChStep ((unplacePiece (placePiece f p) p).data) f.height f.width)
        ((placePiece f p).columnHeights)) = f.columnHeights
    rw [hdata]
    apply List.ext_getElem?
    intro c
    by_cases htouch : ∃ x ∈ unplaceCols f.height f.width p, pyIdx f.width x = some c
    · obtain ⟨o, ho, yy, hres⟩ := (touched_cols_iff f.height f.width p c).1 htouch
      have hcw : c < f.width := pyIdx_lt (resolveCell_eq_some_iff.1 hres).2
      have hclen : c < ((placePiece f p).columnHeights).length := by
        show c < (p.currentOrientation.foldl
          (placeChStep f.height f.width p) f.columnHeights).length
        rw [foldl_placeChStep_length, hwf.2.2]
        exact hcw
      rw [foldl_unplaceChStep_get?_touched f.data f.height f.width _ _ c hclen htouch]
      have hacc2 := hacc o ho yy c hres
      have hclen2 : c < f.columnHeights.length := by rw [hwf.2.2]; exact hcw
      rw [List.getElem?_eq_getElem hclen2]
      have : f.columnHeights.getD c EMPTY_INT = f.columnHeights[c] := by
        simp [List.getD_eq_getElem?_getD, List.getElem?_eq_getElem hclen2]
      rw [← this, hacc2]
    · rw [foldl_unplaceChStep_get?_untouched f.data f.height f.width _ _ c
        (by push_neg at htouch; exact htouch)]
      show (p.currentOrientation.foldl
        (placeChStep f.height f.width p) f.columnHeights)[c]? = _
      rw [foldl_placeChStep_get?_untouched f.height f.width p _ _ c]
      intro o ho cell hres hc2
      apply htouch
      rw [touched_cols_iff]
      obtain ⟨yy, xx⟩ := cell
      cases hc2
      exact ⟨o, ho, yy, hres⟩
  cases hu : unplacePiece (placePiece f p) p
  cases hf : f
  rw [hu] at hdata hw hh hch
  rw [hf] at hdata hw hh hch
  simp_all

/-! ## Frame lemmas for the fit test -/

theorem collides_eq_false_iff (f : Field) (ps : List (Int × Int)) :
    collides f ps = false ↔ ∀ pos ∈ ps, collidesAt f pos = false := by
  rw [collides_eq_any]
  simp

theorem mem_finalPositions (p : Piece) (o : Int × Int)
    (ho : o ∈ p.currentOrientation) :
    (o.1 + p.topLeftCorner.1, o.2 + p.topLeftCorner.2) ∈ finalPositions p := by
  rw [finalPositions, List.mem_map]
  exact ⟨o, ho, rfl⟩

/-- When the piece's positions do not collide, every piece cell resolves to
an in-range grid cell that currently holds `Empty`. -/
theorem not_collides_resolve (f : Field) (p : Piece)
    (hnc : collides f (finalPositions p) = false) :
    ∀ o ∈ p.currentOrientation, ∃ yy xx,
      resolveCell f.height f.width p o = some (yy, xx) ∧
      cellN f yy xx = EMPTY_INT := by
  intro o ho
  have hat := (collides_eq_false_iff f (finalPositions p)).1 hnc _
    (mem_finalPositions p o ho)
  rw [collidesAt_eq_false_iff] at hat
  obtain ⟨yy, xx, hy, hx, hcell⟩ := hat
  exact ⟨yy, xx, resolveCell_eq_some_iff.2 ⟨hy, hx⟩, hcell⟩

theorem not_collides_empty (f : Field) (p : Piece)
    (hnc : collides f (finalPositions p) = false) :
    ∀ cell ∈ resolvedCells f.height f.width p,
      getD2 f.data cell.1 cell.2 = EMPTY_INT := by
  intro cell hcell
  rw [resolvedCells, List.mem_filterMap] at hcell
  obtain ⟨o, ho, hres⟩ := hcell
  obtain ⟨yy, xx, hres2, hempty⟩ := not_collides_resolve f p hnc o ho
  rw [hres2] at hres
  cases hres
  exact hempty

theorem isPerfectFit_snd (f : Field) (p : Piece) :
    (isPerfectFit f p).2 =
      if collides f (finalPositions p) then f
      else unplacePiece (placePiece f p) p := by
  unfold isPerfectFit
  by_cases hcol : collides f (finalPositions p) <;> simp [hcol]

/-- The fit test always hands back the grid it was given: the temporary
placement is erased whatever the outcome. -/
theorem isPerfectFit_data_eq (f : Field) (p : Piece) (hwf : f.Wf) :
    (isPerfectFit f p).2.data = f.data := by
  rw [isPerfectFit_snd]
  by_cases hcol : collides f (finalPositions p)
  · rw [if_pos hcol]
  · rw [if_neg hcol]
    exact place_unplace_data f p hwf
      (not_collides_empty f p (Bool.not_eq_true _ ▸ hcol))

theorem isPerfectFit_dims_eq (f : Field) (p : Piece) :
    (isPerfectFit f p).2.width = f.width ∧ (isPerfectFit f p).2.height = f.height := by
  rw [isPerfectFit_snd]
  by_cases hcol : collides f (finalPositions p)
  · rw [if_pos hcol]; exact ⟨rfl, rfl⟩
  · rw [if_neg hcol]; exact ⟨rfl, rfl⟩

/-- With accurate cached heights on the piece's columns, the fit test hands
the whole field back unchanged. -/
theorem isPerfectFit_field_eq (f : Field) (p : Piece) (hwf : f.Wf)
    (hacc : ∀ o ∈ p.currentOrientation, ∀ yy xx,
      resolveCell f.height f.width p o = some (yy, xx) →
      f.columnHeights.getD xx EMPTY_INT = recalcColumn f.data xx f.height % 256) :
    (isPerfectFit f p).2 = f := by
  rw [isPerfectFit_snd]
  by_cases hcol : collides f (finalPositions p)
  · rw [if_pos hcol]
  · rw [if_neg hcol]
    exact place_unplace_roundtrip f p hwf
      (not_collides_empty f p (Bool.not_eq_true _ ▸ hcol)) hacc

/-! ## Drop-resolution lemmas -/

theorem pyIdx_lt_int {n : Nat} {i : Int} {k : Nat} (h : pyIdx n i = some k) :
    i < (n : Int) := by
  unfold pyIdx at h
  split at h
  · omega
  · split at h
    · omega
    · cases h

theorem isPerfectFit_fst (f : Field) (p : Piece) :
    (isPerfectFit f p).1 =
      if collides f (finalPositions p) then PerfectFit.EXIT
      else if (finalPositions p).all
          (cellChecksOK (placePiece f p) (finalPositions p) p.typeString) then
        PerfectFit.PERFECT
      else PerfectFit.CONTINUE := by
  unfold isPerfectFit
  by_cases hcol : collides f (finalPositions p) <;> simp [hcol]

theorem continue_not_collides (f : Field) (p : Piece)
    (h : (isPerfectFit f p).1 = PerfectFit.CONTINUE) :
    collides f (finalPositions p) = false := by
  rw [isPerfectFit_fst] at h
  by_cases hcol : collides f (finalPositions p)
  · rw [if_pos hcol] at h; cases h
  · exact Bool.not_eq_true _ ▸ hcol

theorem continue_not_happy (f : Field) (p : Piece)
    (h : (isPerfectFit f p).1 = PerfectFit.CONTINUE) :
    (finalPositions p).all
      (cellChecksOK (placePiece f p) (finalPositions p) p.typeString) = false := by
  rw [isPerfectFit_fst] at h
  by_cases hcol : collides f (finalPositions p)
  · rw [if_pos hcol] at h; cases h
  · rw [if_neg hcol] at h
    by_cases hhappy : (finalPositions p).all
        (cellChecksOK (placePiece f p) (finalPositions p) p.typeString)
    · rw [if_pos hhappy] at h; cases h
    · exact Bool.not_eq_true _ ▸ hhappy

/-- A lateral neighbor check never fails: with `emptyOK` set, every branch
of the comparison chain accepts (the same-type branch compares an integer
with a string and can never fire). -/
theorem comparisonOK_emptyOK_true (positions : List (Int × Int)) (ts : String)
    (pos : Int × Int) (v : Nat) : comparisonOK positions ts pos v true = true := by
  unfold comparisonOK pyEqNatStr
  split <;> simp

/-- A failing below-neighbor check means the cell below read `Empty` (and
was not one of the piece's own cells). -/
theorem comparisonOK_false_below (positions : List (Int × Int)) (ts : String)
    (pos : Int × Int) (v : Nat)
    (h : comparisonOK positions ts pos v false = false) :
    v = EMPTY_INT ∧ pos ∉ positions := by
  unfold comparisonOK at h
  split_ifs at h with h1 h2 h3 h4
  · simp [pyEqNatStr] at h3
  · simp only [Bool.not_false, Bool.and_true, decide_eq_true_eq] at h4
    exact ⟨h4, h1⟩

theorem getCellValue_empty_inbounds (f : Field) (y x : Int)
    (h : getCellValue f y x = EMPTY_INT) :
    0 ≤ y ∧ y < (f.height : Int) ∧ 0 ≤ x ∧ x < (f.width : Int) := by
  unfold getCellValue at h
  split at h
  · assumption
  · simp [LIMIT_INT, EMPTY_INT] at h

/-- A `CONTINUE` outcome pins the anchor row from below: some piece cell's
below-neighbor read `Empty` in-bounds, so that cell's row is at least
`-1`. -/
theorem continue_row_lower (f : Field) (p : Piece)
    (h : (isPerfectFit f p).1 = PerfectFit.CONTINUE) :
    ∃ o ∈ p.currentOrientation, -1 ≤ o.1 + p.topLeftCorner.1 := by
  have hall := continue_not_happy f p h
  rw [List.all_eq_false] at hall
  obtain ⟨pos, hpos, hfail⟩ := hall
  rw [finalPositions, List.mem_map] at hpos
  obtain ⟨o, ho, rfl⟩ := hpos
  refine ⟨o, ho, ?_⟩
  rw [Bool.not_eq_true] at hfail
  have hfail2 :
      (comparisonOK (finalPositions p) p.typeString
          (o.1 + p.topLeftCorner.1 + 1, o.2 + p.topLeftCorner.2)
          (getCellValue (placePiece f p) (o.1 + p.topLeftCorner.1 + 1)
            (o.2 + p.topLeftCorner.2)) false &&
        comparisonOK (finalPositions p) p.typeString
          (o.1 + p.topLeftCorner.1, o.2 + p.topLeftCorner.2 - 1)
          (getCellValue (placePiece f p) (o.1 + p.topLeftCorner.1)
            (o.2 + p.topLeftCorner.2 - 1)) true &&
        comparisonOK (finalPositions p) p.typeString
          (o.1 + p.topLeftCorner.1, o.2 + p.topLeftCorner.2 + 1)
          (getCellValue (placePiece f p) (o.1 + p.topLeftCorner.1)
            (o.2 + p.topLeftCorner.2 + 1)) true) = false := hfail
  rw [Bool.and_eq_false_iff, Bool.and_eq_false_iff] at hfail2
  rcases hfail2 with (hbelow | hleft) | hright
  · have hb := comparisonOK_false_below _ _ _ _ hbelow
    have := getCellValue_empty_inbounds _ _ _ hb.1
    omega
  · rw [comparisonOK_emptyOK_true] at hleft; cases hleft
  · rw [comparisonOK_emptyOK_true] at hright; cases hright

/-- A `CONTINUE` outcome pins the anchor row from above: no cell collided,
so every piece cell's row is below the floor index. -/
theorem continue_row_upper (f : Field) (p : Piece)
    (h : (isPerfectFit f p).1 = PerfectFit.CONTINUE) :
    ∀ o ∈ p.currentOrientation, o.1 + p.topLeftCorner.1 < (f.height : Int) := by
  intro o ho
  obtain ⟨yy, xx, hres, _⟩ :=
    not_collides_resolve f p (continue_not_collides f p h) o ho
  exact pyIdx_lt_int (resolveCell_eq_some_iff.1 hres).1

theorem exists_max_of_ne_nil {l : List Int} (h : l ≠ []) :
    ∃ M ∈ l, ∀ a ∈ l, a ≤ M := by
  induction l with
  | nil => exact absurd rfl h
  | cons a l ih =>
    by_cases hl : l = []
    · subst hl
      refine ⟨a, List.mem_cons_self a [], ?_⟩
      intro b hb
      rcases List.mem_cons.1 hb with hba | hb2
      · rw [hba]
      · cases hb2
    · obtain ⟨M, hM, hmax⟩ := ih hl
      refine ⟨max a M, ?_, ?_⟩
      · rcases max_choice a M with hc | hc
        · rw [hc]; exact List.mem_cons_self a l
        · rw [hc]; exact List.mem_cons_of_mem a hM
      · intro b hb
        rcases List.mem_cons.1 hb with hba | hb2
        · rw [hba]; exact le_max_left a M
        · exact le_trans (hmax b hb2) (le_max_right a M)

theorem findDropFuel_cont (f : Field) (p : Piece) (n : Nat)
    (h : (isPerfectFit f p).1 = PerfectFit.CONTINUE) :
    findDropFuel f p (n + 1) = findDropFuel f (advanceRow p) n := by
  show (match (isPerfectFit f p).1 with
    | PerfectFit.CONTINUE => findDropFuel f (advanceRow p) n
    | PerfectFit.EXIT => some none
    | PerfectFit.PERFECT => some (some p)) = _
  rw [h]

theorem findDropFuel_not_cont (f : Field) (p : Piece) (n : Nat)
    (h : (isPerfectFit f p).1 ≠ PerfectFit.CONTINUE) :
    findDropFuel f p (n + 1) ≠ none := by
  show (match (isPerfectFit f p).1 with
    | PerfectFit.CONTINUE => findDropFuel f (advanceRow p) n
    | PerfectFit.EXIT => some none
    | PerfectFit.PERFECT => some (some p)) ≠ none
  cases hfit : (isPerfectFit f p).1
  · simp
  · simp
  · exact absurd hfit h

/-- Fuel bound for the drop loop: starting from anchor row `r`, at most
`height - (r + M) + 1` fit evaluations happen, where `M` is the largest row
offset of the piece. -/
theorem findDropFuel_terminates (f : Field) (M : Int) :
    ∀ (n : Nat) (p : Piece), M ∈ p.currentOrientation.map Prod.fst →
    (∀ a ∈ p.currentOrientation.map Prod.fst, a ≤ M) →
    ((f.height : Int) - (p.topLeftCorner.1 + M)).toNat + 1 ≤ n →
    findDropFuel f p n ≠ none := by
  intro n
  induction n with
  | zero => intro p _ _ hle; omega
  | succ n ih =>
    intro p hM hmax hle
    by_cases hcont : (isPerfectFit f p).1 = PerfectFit.CONTINUE
    · rw [findDropFuel_cont f p n hcont]
      rw [List.mem_map] at hM
      obtain ⟨o, ho, rfl⟩ := hM
      have hup := continue_row_upper f p hcont o ho
      have hlow : p.topLeftCorner.1 + o.1 ≤ (f.height : Int) - 1 := by omega
      apply ih (advanceRow p)
      · rw [List.mem_map]; exact ⟨o, ho, rfl⟩
      · exact hmax
      · show ((f.height : Int) - ((p.topLeftCorner.1 + 1) + o.1)).toNat + 1 ≤ n
        omega
    · exact findDropFuel_not_cont f p n hcont

/-- Whatever the fuel, a finished drop search returns either no placement
or the original piece moved straight down to an anchor that fits
perfectly. -/
theorem findDropFuel_sound (f : Field) :
    ∀ (n : Nat) (p : Piece) (r : Option Piece), findDropFuel f p n = some r →
    r = none ∨ ∃ q, r = some q ∧ (isPerfectFit f q).1 = PerfectFit.PERFECT ∧
      q.currentOrientation = p.currentOrientation ∧
      q.topLeftCorner.2 = p.topLeftCorner.2 ∧
      q.typeInt = p.typeInt ∧ q.typeString = p.typeString ∧
      p.topLeftCorner.1 ≤ q.topLeftCorner.1 := by
  intro n
  induction n with
  | zero => intro p r h; cases h
  | succ n ih =>
    intro p r h
    rw [show findDropFuel f p (n + 1) = (match (isPerfectFit f p).1 with
      | PerfectFit.CONTINUE => findDropFuel f (advanceRow p) n
      | PerfectFit.EXIT => some none
      | PerfectFit.PERFECT => some (some p)) from rfl] at h
    cases hfit : (isPerfectFit f p).1 with
    | PERFECT =>
      rw [hfit] at h
      cases h
      exact Or.inr ⟨p, rfl, hfit, rfl, rfl, rfl, rfl, le_refl _⟩
    | EXIT =>
      rw [hfit] at h
      cases h
      exact Or.inl rfl
    | CONTINUE =>
      rw [hfit] at h
      rcases ih (advanceRow p) r h with hnone | ⟨q, hq, hperf, ho, hc, ht, hs, hr⟩
      · exact Or.inl hnone
      · refine Or.inr ⟨q, hq, hperf, ho, hc, ht, hs, ?_⟩
        have : p.topLeftCorner.1 ≤ p.topLeftCorner.1 + 1 := by omega
        exact le_trans this hr

/-! ## The recalculation scan computes the bottom run -/

theorem recalcColumn_eq_bottomRun (f : Field) (c : Nat) :
    recalcColumn f.data c f.height = bottomRun f c := by
  unfold bottomRun
  suffices h : ∀ n, recalcColumn f.data c n =
      ((List.range n).reverse.takeWhile (fun y => cellN f y c != EMPTY_INT)).length by
    exact h f.height
  intro n
  induction n with
  | zero => rfl
  | succ n ih =>
    rw [List.range_succ, List.reverse_append, List.reverse_singleton,
      List.singleton_append, List.takeWhile_cons]
    by_cases hc : cellN f n c = EMPTY_INT
    · have hpred : (cellN f n c != EMPTY_INT) = false := by
        simp [hc]
      rw [hpred]
      show recalcColumn f.data c (n + 1) = 0
      unfold recalcColumn
      rw [show getD2 f.data n c = cellN f n c from rfl, if_pos hc]
    · have hpred : (cellN f n c != EMPTY_INT) = true := by
        simp [hc]
      rw [hpred]
      show recalcColumn f.data c (n + 1) = _
      unfold recalcColumn
      rw [show getD2 f.data n c = cellN f n c from rfl, if_neg hc]
      simp [ih]

theorem collidesAt_eq_true_iff (f : Field) (pos : Int × Int) :
    collidesAt f pos = true ↔
      rawCell f pos.1 pos.2 = none ∨
      ∃ v, rawCell f pos.1 pos.2 = some v ∧ v ≠ EMPTY_INT := by
  unfold collidesAt rawCell
  cases hy : pyIdx f.height pos.1 with
  | none => simp [hy]
  | some yy =>
    cases hx : pyIdx f.width pos.2 with
    | none => simp [hy, hx]
    | some xx => simp [hy, hx]

/-! ## Claim theorems -/

/-- C1: the specification says a neighbor holding the piece's own type tag
makes the placement unacceptable (outcome `CONTINUE`).  The code compares
the integer cell value with the piece's *string* tag — a comparison that is
always false in Python — so the rule never fires.  At this input, `(0, 1)`
is a piece cell, its left neighbor `(0, 0)` is not a piece cell and not the
boundary, and it stores the piece's own tag, yet the fit test returns
`PERFECT`. -/
theorem c1_same_type_neighbor_ignored :
    ((0 : Int), (1 : Int)) ∈ finalPositions (oPiece (0, 1)) ∧
    ((0 : Int), (0 : Int)) ∉ finalPositions (oPiece (0, 1)) ∧
    cellN sameTagField 0 0 = (oPiece (0, 1)).typeInt ∧
    cellN sameTagField 0 0 ≠ LIMIT_INT ∧
    (isPerfectFit sameTagField (oPiece (0, 1))).1 = PerfectFit.PERFECT := by
  decide

/-- C2 (counterexample): in a column whose topmost non-`Empty` cell sits
above an `Empty` cell, the explicit recompute stores `0`, not
`height - (topmost non-Empty row) = 2` as the claim's formula demands. -/
theorem c2_gap_column_breaks_topmost_formula :
    (getColumnHeight gapField 0 true).1 = 0 ∧
    ((getColumnHeight gapField 0 true).2).columnHeights.getD 0 EMPTY_INT = 0 ∧
    specColumnHeight gapField 0 = 2 := by
  decide

/-- C2 (amended): after an explicit recompute of column `c`, the cached
entry (and the returned value) equals the length of the run of consecutive
non-`Empty` cells scanned upward from the bottom row, stopping at the first
`Empty` cell, reduced modulo 256 by the `uint8` store. -/
theorem c2_recalc_is_bottom_run (f : Field) (c : Nat) (hwf : f.Wf)
    (hc : c < f.width) :
    ((getColumnHeight f c true).2).columnHeights.getD c EMPTY_INT =
      bottomRun f c % 256 ∧
    (getColumnHeight f c true).1 = bottomRun f c % 256 := by
  have hlen : c < f.columnHeights.length := by rw [hwf.2.2]; exact hc
  have hset : (f.columnHeights.set c
      (recalcColumn f.data c f.height % 256)).getD c EMPTY_INT =
      recalcColumn f.data c f.height % 256 := by
    simp [List.getD_eq_getElem?_getD, List.getElem?_set_self hlen]
  refine ⟨?_, ?_⟩ <;>
  · show (f.columnHeights.set c
      (recalcColumn f.data c f.height % 256)).getD c EMPTY_INT = bottomRun f c % 256
    rw [hset, recalcColumn_eq_bottomRun]

/-- C2 (witness). -/
theorem c2_recalc_is_bottom_run_witness :
    ((getColumnHeight gapField 0 true).2).columnHeights.getD 0 EMPTY_INT =
      bottomRun gapField 0 % 256 ∧
    (getColumnHeight gapField 0 true).1 = bottomRun gapField 0 % 256 :=
  c2_recalc_is_bottom_run gapField 0 (by decide) (by decide)

/-- C3 (counterexample): the claim requires `collides` to report `true` for
any position outside `[0, height) × [0, width)`.  The row index `-1` is
outside that rectangle, but the raw numpy read wraps it to the last row,
which is `Empty`, so `collides` reports `false`. -/
theorem c3_negative_index_is_not_a_collision :
    ((-1 : Int) < 0) ∧ collides smallField [((-1 : Int), (0 : Int))] = false := by
  decide

/-- C3 (amended): `collides` reports `true` exactly when some listed
position either raises on the raw numpy read (it lies outside the wrap
range `[-height, height) × [-width, width)`) or wrap-resolves to a
non-`Empty` cell; it short-circuits at the first such position.  The
embedding is a pure function of the field, so the test has no side
effects. -/
theorem c3_collides_wrap_semantics (f : Field) (ps : List (Int × Int)) :
    (collides f ps = true ↔
      ∃ pos ∈ ps, rawCell f pos.1 pos.2 = none ∨
        ∃ v, rawCell f pos.1 pos.2 = some v ∧ v ≠ EMPTY_INT) ∧
    (∀ pos rest,
      (rawCell f pos.1 pos.2 = none ∨
        ∃ v, rawCell f pos.1 pos.2 = some v ∧ v ≠ EMPTY_INT) →
      collides f (pos :: rest) = true) := by
  constructor
  · rw [collides_eq_any, List.any_eq_true]
    constructor
    · rintro ⟨pos, hpos, hat⟩
      exact ⟨pos, hpos, (collidesAt_eq_true_iff f pos).1 hat⟩
    · rintro ⟨pos, hpos, hraw⟩
      exact ⟨pos, hpos, (collidesAt_eq_true_iff f pos).2 hraw⟩
  · intro pos rest hraw
    rw [collides_eq_any, List.any_cons,
      (collidesAt_eq_true_iff f pos).2 hraw, Bool.true_or]

/-- C3 (witness). -/
theorem c3_collides_wrap_semantics_witness :
    collides smallField [((5 : Int), (0 : Int)), ((0 : Int), (0 : Int))] = true :=
  (c3_collides_wrap_semantics smallField []).2 ((5 : Int), (0 : Int))
    [((0 : Int), (0 : Int))] (Or.inl (by decide))

/-- C8: the boundary-safe read is a total function that returns the
boundary sentinel whenever either coordinate lies outside
`[0, height) × [0, width)`, and the stored grid cell otherwise. -/
theorem c8_getCellValue_total (f : Field) (y x : Int) :
    ((y < 0 ∨ (f.height : Int) ≤ y ∨ x < 0 ∨ (f.width : Int) ≤ x) →
      getCellValue f y x = LIMIT_INT) ∧
    (0 ≤ y → y < (f.height : Int) → 0 ≤ x → x < (f.width : Int) →
      getCellValue f y x = cellN f y.toNat x.toNat) := by
  unfold getCellValue
  constructor
  · intro hout
    rw [if_neg (by omega)]
  · intro h1 h2 h3 h4
    rw [if_pos ⟨h1, h2, h3, h4⟩]

/-- C8 (witness). -/
theorem c8_getCellValue_total_witness :
    getCellValue smallField (-3) 0 = LIMIT_INT ∧
    getCellValue smallField 0 0 = cellN smallField 0 0 :=
  ⟨(c8_getCellValue_total smallField (-3) 0).1 (by decide),
   (c8_getCellValue_total smallField 0 0).2 (by decide) (by decide) (by decide)
     (by decide)⟩

/-- C10: with both endpoints defaulted, the height-cache query slices
`columnHeights[0 : width - 1]`, whose exclusive end drops the last column:
the result has `width - 1` entries, matching the cache on columns
`0 … width - 2`. -/
theorem c10_default_range_omits_last_column (f : Field) (hwf : f.Wf)
    (hw : 1 ≤ f.width) :
    (getColumnHeights f none none).length = f.width - 1 ∧
    ∀ c, c < f.width - 1 →
      (getColumnHeights f none none)[c]? = f.columnHeights[c]? := by
  have hlen : f.columnHeights.length = f.width := hwf.2.2
  have hstart : pySliceIdx f.columnHeights.length 0 = 0 := by
    unfold pySliceIdx
    rw [if_neg (by omega)]
    simp
  have hend : pySliceIdx f.columnHeights.length ((f.width : Int) - 1) =
      f.width - 1 := by
    unfold pySliceIdx
    rw [if_neg (by omega)]
    rw [hlen]
    omega
  have hgch : getColumnHeights f none none =
      f.columnHeights.take (f.width - 1) := by
    show pySlice f.columnHeights 0 ((f.width : Int) - 1) = _
    unfold pySlice
    rw [hstart, hend, List.drop_zero, Nat.sub_zero]
  rw [hgch]
  constructor
  · rw [List.length_take, hlen]
    omega
  · intro c hcw
    exact List.getElem?_take_of_lt hcw

/-- C5 (counterexample): the round trip does not restore a *stale* height
cache.  Here every cell of the placement is inside the grid and `Empty`
(the claim's premise), but the cached height `5` of column 0 is stale;
after place-then-unplace the cache holds the freshly recomputed `0`. -/
theorem c5_stale_cache_not_restored :
    (∀ pos ∈ finalPositions (oPiece (0, 0)),
      (0 ≤ pos.1 ∧ pos.1 < (staleField.height : Int) ∧
       0 ≤ pos.2 ∧ pos.2 < (staleField.width : Int)) ∧
      cellN staleField pos.1.toNat pos.2.toNat = EMPTY_INT) ∧
    (unplacePiece (placePiece staleField (oPiece (0, 0)))
        (oPiece (0, 0))).columnHeights = [0, 0] ∧
    staleField.columnHeights = [5, 0] := by
  decide

/-- C5 (amended): for a collision-free placement (all cells inside the grid
and `Empty`), place followed by unplace restores the grid and the height
cache pointwise, *provided* the cached height of each placed column equals
its freshly recomputed value beforehand (the removal epilogue rewrites the
touched columns with recomputed values, so a stale cache entry is
overwritten rather than restored). -/
theorem c5_place_unplace_restores (f : Field) (p : Piece) (hwf : f.Wf)
    (hfree : ∀ pos ∈ finalPositions p,
      (0 ≤ pos.1 ∧ pos.1 < (f.height : Int) ∧
       0 ≤ pos.2 ∧ pos.2 < (f.width : Int)) ∧
      cellN f pos.1.toNat pos.2.toNat = EMPTY_INT)
    (hacc : ∀ pos ∈ finalPositions p,
      f.columnHeights.getD pos.2.toNat EMPTY_INT =
        recalcColumn f.data pos.2.toNat f.height % 256) :
    unplacePiece (placePiece f p) p = f := by
  have hres : ∀ o ∈ p.currentOrientation,
      resolveCell f.height f.width p o =
        some ((o.1 + p.topLeftCorner.1).toNat, (o.2 + p.topLeftCorner.2).toNat) := by
    intro o ho
    have hf := hfree _ (mem_finalPositions p o ho)
    exact resolveCell_eq_some_iff.2
      ⟨pyIdx_of_nonneg hf.1.1 hf.1.2.1,
       pyIdx_of_nonneg hf.1.2.2.1 hf.1.2.2.2⟩
  apply place_unplace_roundtrip f p hwf
  · intro cell hcell
    rw [resolvedCells, List.mem_filterMap] at hcell
    obtain ⟨o, ho, hro⟩ := hcell
    rw [hres o ho] at hro
    cases hro
    exact (hfree _ (mem_finalPositions p o ho)).2
  · intro o ho yy xx hro
    rw [hres o ho] at hro
    cases hro
    exact hacc _ (mem_finalPositions p o ho)

/-- C5 (witness). -/
theorem c5_place_unplace_restores_witness :
    unplacePiece (placePiece (mkField 2 2) (oPiece (0, 0))) (oPiece (0, 0)) =
      mkField 2 2 :=
  c5_place_unplace_restores (mkField 2 2) (oPiece (0, 0)) (by decide)
    (by decide) (by decide)

/-- C6 (counterexample): the fit test does not hand back a *stale* height
cache: at this input the outcome is `PERFECT` and the grid is restored, but
the stale cached height `7` of column 0 comes back as the freshly
recomputed `0`. -/
theorem c6_stale_cache_changed_by_fit_test :
    ((isPerfectFit staleField2 (oPiece (0, 0))).2).columnHeights = [0, 0] ∧
    staleField2.columnHeights = [7, 0] := by
  decide

/-- C6 (amended): the fit test always returns the grid (and the field's
dimensions) unchanged, for every anchor and outcome; the height cache is
also returned unchanged provided the cached heights of the piece's
(wrap-resolved) columns equal their freshly recomputed values before the
call. -/
theorem c6_fit_test_frame (f : Field) (p : Piece) (hwf : f.Wf) :
    ((isPerfectFit f p).2.data = f.data ∧
     (isPerfectFit f p).2.width = f.width ∧
     (isPerfectFit f p).2.height = f.height) ∧
    ((∀ xx ∈ (resolvedCells f.height f.width p).map Prod.snd,
        f.columnHeights.getD xx EMPTY_INT =
          recalcColumn f.data xx f.height % 256) →
      (isPerfectFit f p).2 = f) :=
  ⟨⟨isPerfectFit_data_eq f p hwf, (isPerfectFit_dims_eq f p).1,
    (isPerfectFit_dims_eq f p).2⟩,
   fun hacc => isPerfectFit_field_eq f p hwf
     (fun o ho yy xx hres => hacc xx
       (List.mem_map.2 ⟨(yy, xx), List.mem_filterMap.2 ⟨o, ho, hres⟩, rfl⟩))⟩

/-- C6 (witness). -/
theorem c6_fit_test_frame_witness :
    (isPerfectFit (mkField 3 3) (oPiece (0, 0))).2 = mkField 3 3 :=
  (c6_fit_test_frame (mkField 3 3) (oPiece (0, 0)) (by decide)).2 (by decide)

/-- C7 (counterexample): the claim bounds the advance-and-retest loop by
`height` iterations for any starting row at or above the top of the field.
On an empty 4-wide, 2-tall field, the S piece starting at row `-2` (above
the top) needs 3 advances — more than `height = 2` — before the loop stops:
with fuel for `height + 1` fit evaluations (that is, `height` advances) the
loop has not finished, and one further evaluation ends it with no
placement. -/
theorem c7_height_iterations_insufficient :
    (sPiece (-2, 0)).topLeftCorner.1 ≤ 0 ∧
    findDropFuel wideField (sPiece (-2, 0)) (wideField.height + 1) = none ∧
    findDropFuel wideField (sPiece (-2, 0)) (wideField.height + 2) = some none := by
  decide

/-- C7 (amended): for every piece with at least one cell, drop resolution
terminates within `height + 1` advance iterations (`height + 2` fit
evaluations) — and within `height` advances when the starting row and all
row offsets are non-negative — returning either an explicit no-placement
result or the input piece moved straight down (same offsets, column and
tags, row not decreased) to an anchor where the fit test reports
`PERFECT`. -/
theorem c7_drop_resolution_bounds (f : Field) (p : Piece)
    (hne : p.currentOrientation ≠ []) :
    findDropFuel f p (f.height + 2) ≠ none ∧
    (0 ≤ p.topLeftCorner.1 → (∀ o ∈ p.currentOrientation, 0 ≤ o.1) →
      findDropFuel f p (f.height + 1) ≠ none) ∧
    (∀ r, findDropFuel f p (f.height + 2) = some r →
      r = none ∨ ∃ q, r = some q ∧
        (isPerfectFit f q).1 = PerfectFit.PERFECT ∧
        q.currentOrientation = p.currentOrientation ∧
        q.topLeftCorner.2 = p.topLeftCorner.2 ∧
        q.typeInt = p.typeInt ∧ q.typeString = p.typeString ∧
        p.topLeftCorner.1 ≤ q.topLeftCorner.1) := by
  have hmapne : p.currentOrientation.map Prod.fst ≠ [] := by
    intro hmap
    exact hne (List.map_eq_nil_iff.1 hmap)
  obtain ⟨M, hM, hmax⟩ := exists_max_of_ne_nil hmapne
  refine ⟨?_, ?_, ?_⟩
  · by_cases hlow : -1 ≤ p.topLeftCorner.1 + M
    · exact findDropFuel_terminates f M (f.height + 2) p hM hmax (by omega)
    · apply findDropFuel_not_cont f p (f.height + 1)
      intro hcont
      obtain ⟨o, ho, holow⟩ := continue_row_lower f p hcont
      have hoM : o.1 ≤ M := hmax o.1 (List.mem_map.2 ⟨o, ho, rfl⟩)
      omega
  · intro hrow hoffs
    have hM0 : 0 ≤ M := by
      obtain ⟨o, ho, hoM⟩ := List.mem_map.1 hM
      exact hoM ▸ hoffs o ho
    exact findDropFuel_terminates f M (f.height + 1) p hM hmax (by omega)
  · intro r hr
    exact findDropFuel_sound f (f.height + 2) p r hr

/-- C7 (witness). -/
theorem c7_drop_resolution_bounds_witness :
    findDropFuel (mkField 4 4) (oPiece (0, 0)) ((mkField 4 4).height + 1) ≠ none :=
  (c7_drop_resolution_bounds (mkField 4 4) (oPiece (0, 0)) (by decide)).2.1
    (by decide) (by decide)

/-- C9: a piece just placed collides with its own cells: the first cell
either fails the raw read (reported as a collision) or reads back the
piece's own non-`Empty` tag.  The hypotheses are the shape-catalog
contract: at least one cell and a `uint8` tag distinct from the `Empty` and
boundary codes. -/
theorem c9_placed_piece_collides (f : Field) (p : Piece) (hwf : f.Wf)
    (hp : p.Wf) :
    collides (placePiece f p) (finalPositions p) = true := by
  obtain ⟨o₀, ho₀⟩ : ∃ o, o ∈ p.currentOrientation := by
    cases horient : p.currentOrientation with
    | nil => exact absurd horient hp.1
    | cons a l => exact ⟨a, horient ▸ List.mem_cons_self a l⟩
  rw [collides_eq_any, List.any_eq_true]
  refine ⟨(o₀.1 + p.topLeftCorner.1, o₀.2 + p.topLeftCorner.2),
    mem_finalPositions p o₀ ho₀, ?_⟩
  unfold collidesAt
  cases hy : pyIdx (placePiece f p).height (o₀.1 + p.topLeftCorner.1) with
  | none => simp [hy]
  | some yy =>
    cases hx : pyIdx (placePiece f p).width (o₀.2 + p.topLeftCorner.2) with
    | none => simp [hy, hx]
    | some xx =>
      simp only [hy, hx]
      have hresc : resolveCell f.height f.width p o₀ = some (yy, xx) :=
        resolveCell_eq_some_iff.2 ⟨hy, hx⟩
      have hmem : (yy, xx) ∈ resolvedCells f.height f.width p :=
        List.mem_filterMap.2 ⟨o₀, ho₀, hresc⟩
      have hcell : cellN (placePiece f p) yy xx = p.typeInt % 256 := by
        show getD2 (writeCells f.data (resolvedCells f.height f.width p)
          (p.typeInt % 256)) yy xx = _
        rw [getD2_writeCells f.data _ _ (resolvedCells_shape f p hwf) yy xx,
          if_pos hmem]
      have hmod : p.typeInt % 256 = p.typeInt := Nat.mod_eq_of_lt hp.2.2.1
      simp [hcell, hmod, hp.2.2.2.1]

/-- C9 (witness). -/
theorem c9_placed_piece_collides_witness :
    collides (placePiece (mkField 2 3) (oPiece (1, 0)))
      (finalPositions (oPiece (1, 0))) = true :=
  c9_placed_piece_collides (mkField 2 3) (oPiece (1, 0)) (by decide) (by decide)

/-- C10 (witness). -/
theorem c10_default_range_omits_last_column_witness :
    (getColumnHeights heightsField none none).length = 2 ∧
    (getColumnHeights heightsField none none)[1]? =
      heightsField.columnHeights[1]? :=
  ⟨(c10_default_range_omits_last_column heightsField (by decide) (by decide)).1,
   (c10_default_range_omits_last_column heightsField (by decide) (by decide)).2
     1 (by decide)⟩

namespace NpHeap

/-- C4 (counterexample): the column-slice copy does not produce independent
storage.  `copySubFields` returns numpy views: after writing `7` through
the slice of a freshly constructed 2×1 field, the original field reads `7`
at the aliased cell, where before the write it read `Empty`. -/
theorem c4_slice_shares_storage :
    readData (writeData base.2 (copySubFields base.1 0 1) 0 0 7) base.1 0 0 = 7 ∧
    readData base.2 base.1 0 0 = EMPTY_INT :=
  ⟨rfl, rfl⟩

/-- C4 (amended): the full deep copy owns independent storage — writes
through either of the copy's arrays change no read of the original, and
vice versa — while the column-slice copy is a view: a write through the
slice at column `x` is exactly a write to the source at column
`startX + x`, for the grid and the height cache alike. -/
theorem c4_copy_independent_slice_aliases (σ : Store) (f : HField)
    (hd : f.dataRef < σ.fresh) (hc : f.chRef < σ.fresh) :
    (∀ y x v i j, readData (writeData (copy σ f).2 (copy σ f).1 y x v) f i j =
        readData (copy σ f).2 f i j) ∧
    (∀ c v i, readCH (writeCH (copy σ f).2 (copy σ f).1 c v) f i =
        readCH (copy σ f).2 f i) ∧
    (∀ y x v i j, readData (writeData (copy σ f).2 f y x v) (copy σ f).1 i j =
        readData (copy σ f).2 (copy σ f).1 i j) ∧
    (∀ c v i, readCH (writeCH (copy σ f).2 f c v) (copy σ f).1 i =
        readCH (copy σ f).2 (copy σ f).1 i) ∧
    (∀ s e y x v,
      writeData σ (copySubFields f s e) y x v = writeData σ f y (s + x) v) ∧
    (∀ s e c v,
      writeCH σ (copySubFields f s e) c v = writeCH σ f (s + c) v) := by
  have hdne : f.dataRef ≠ σ.fresh := Nat.ne_of_lt hd
  have hcne : f.chRef ≠ σ.fresh + 1 := by omega
  refine ⟨?_, ?_, ?_, ?_, ?_, ?_⟩
  · intro y x v i j
    simp [readData, writeData, copy, hdne]
  · intro c v i
    simp [readCH, writeCH, copy, hcne]
  · intro y x v i j
    simp [readData, writeData, copy, Ne.symm hdne]
  · intro c v i
    simp [readCH, writeCH, copy, Ne.symm hcne]
  · intro s e y x v
    simp only [writeData, copySubFields]
    rw [Nat.add_assoc]
  · intro s e c v
    simp only [writeCH, copySubFields]
    rw [Nat.add_assoc]

/-- C4 (witness). -/
theorem c4_copy_independent_slice_aliases_witness :
    readData (writeData (copy base.2 base.1).2 (copy base.2 base.1).1 0 0 9)
        base.1 0 0 =
      readData (copy base.2 base.1).2 base.1 0 0 :=
  (c4_copy_independent_slice_aliases base.2 base.1 (by decide) (by decide)).1
    0 0 9 0 0

end NpHeap

end Tetris
